import Mathlib

/-!
Verification of the Strawberry tag-edit session (`EditTagDialog`) and the
Tidal cover-art provider (`TidalCoverProvider`) against their
natural-language specification.  The definitions below are a shallow
embedding of the C++ sources `src/dialogs/edittagdialog.cpp` and
`src/covermanager/tidalcoverprovider.cpp`: Qt variants become a small sum
type, `Song` becomes a record of the editable metadata fields plus
identity, and the stateful dialog operations become explicit
state-passing functions over a list of `Data` entries.
-/

set_option maxHeartbeats 1600000

namespace Strawberry

/-- Model of `QVariant` restricted to the payloads the tag editor uses:
invalid/null variants, strings, ints and bools. -/
inductive QVariant where
  | null : QVariant
  | str : String → QVariant
  | int : Int → QVariant
  | bool : Bool → QVariant
deriving DecidableEq, Repr

/-- `QVariant::toString`: identity on strings, decimal rendering of ints,
`true`/`false` for bools, empty string for an invalid variant. -/
def QVariant.toString : QVariant → String
  | QVariant.null => ""
  | QVariant.str s => s
  | QVariant.int n => ToString.toString n
  | QVariant.bool b => if b then "true" else "false"

/-- `QVariant::toInt`: identity on ints, numeric parse (0 on failure) for
strings, 0/1 for bools, 0 for an invalid variant. -/
def QVariant.toInt : QVariant → Int
  | QVariant.null => 0
  | QVariant.str s => (s.toInt?).getD 0
  | QVariant.int n => n
  | QVariant.bool b => if b then 1 else 0

/-- `QVariant::toBool`: identity on bools; a string converts to `false`
exactly when it is empty, `"0"` or `"false"`; an int is `true` iff
nonzero. -/
def QVariant.toBool : QVariant → Bool
  | QVariant.null => false
  | QVariant.str s => !(s = "" || s = "0" || s = "false")
  | QVariant.int n => n != 0
  | QVariant.bool b => b

/-- The slice of `Song` the excerpted code reads and writes: the fourteen
editable metadata fields dispatched by `EditTagDialog::Data`, the
manual cover-art URL, and the identity/validity data used by
`UpdateCoverOf`, `SaveData` and `SongSaveComplete`. -/
structure Song where
  title : String
  artist : String
  album : String
  albumartist : String
  composer : String
  performer : String
  grouping : String
  genre : String
  comment : String
  lyrics : String
  track : Int
  disc : Int
  year : Int
  compilation : Bool
  art_manual : String
  valid : Bool
  id : Int
  path : String
  is_collection : Bool
deriving DecidableEq, Repr

instance : Inhabited Song :=
  ⟨⟨"", "", "", "", "", "", "", "", "", "", 0, 0, 0, false, "", false, -1, "", false⟩⟩

/-- Modelled from the spec: `Song::effective_albumartist` is not part of
the excerpt; the spec keys cover-art propagation on the entry's
"(album-artist, album)" pair, so the effective album artist is taken to
be the album-artist field. -/
def Song.effective_albumartist (s : Song) : String := s.albumartist

/-- Modelled from the spec: `Song::IsMetadataEqual` is not part of the
excerpt; per the spec, a commit persists exactly the entries whose
`current` differs from `original` in some editable metadata field, so two
songs are metadata-equal when all fourteen editable fields coincide
(cover art, statistics and identity are out-of-band). -/
def Song.isMetadataEqual (a b : Song) : Bool :=
  decide (a.title = b.title ∧ a.artist = b.artist ∧ a.album = b.album ∧
    a.albumartist = b.albumartist ∧ a.composer = b.composer ∧
    a.performer = b.performer ∧ a.grouping = b.grouping ∧ a.genre = b.genre ∧
    a.comment = b.comment ∧ a.lyrics = b.lyrics ∧ a.track = b.track ∧
    a.disc = b.disc ∧ a.year = b.year ∧ a.compilation = b.compilation)

/-- `EditTagDialog::Data`: an entry pairing the `original` record (as
last loaded or saved) with the `current` working copy. -/
structure Data where
  original_ : Song
  current_ : Song
deriving DecidableEq, Repr

instance : Inhabited Data := ⟨⟨default, default⟩⟩

/-- `EditTagDialog::Data::Data(song)`: both records start out equal. -/
def Data.mk0 (song : Song) : Data := ⟨song, song⟩

/-- `EditTagDialog::Data::value`: stringly-typed field read dispatch; an
unknown id is logged and yields an invalid variant. -/
def Data.value (song : Song) (id : String) : QVariant :=
  if id = "title" then QVariant.str song.title
  else if id = "artist" then QVariant.str song.artist
  else if id = "album" then QVariant.str song.album
  else if id = "albumartist" then QVariant.str song.albumartist
  else if id = "composer" then QVariant.str song.composer
  else if id = "performer" then QVariant.str song.performer
  else if id = "grouping" then QVariant.str song.grouping
  else if id = "genre" then QVariant.str song.genre
  else if id = "comment" then QVariant.str song.comment
  else if id = "lyrics" then QVariant.str song.lyrics
  else if id = "track" then QVariant.int song.track
  else if id = "disc" then QVariant.int song.disc
  else if id = "year" then QVariant.int song.year
  else if id = "compilation" then QVariant.bool song.compilation
  else QVariant.null

/-- `EditTagDialog::Data::set_value`: stringly-typed field write dispatch.
Every branch of the C++ dispatch writes through `current_` (via one of
its setters) and an unknown id is logged and is a no-op, so the dispatch
is a pure update of the `current_` record. -/
def Data.set_value (d : Data) (id : String) (v : QVariant) : Data :=
  { d with current_ :=
    if id = "title" then { d.current_ with title := v.toString }
    else if id = "artist" then { d.current_ with artist := v.toString }
    else if id = "album" then { d.current_ with album := v.toString }
    else if id = "albumartist" then { d.current_ with albumartist := v.toString }
    else if id = "composer" then { d.current_ with composer := v.toString }
    else if id = "performer" then { d.current_ with performer := v.toString }
    else if id = "grouping" then { d.current_ with grouping := v.toString }
    else if id = "genre" then { d.current_ with genre := v.toString }
    else if id = "comment" then { d.current_ with comment := v.toString }
    else if id = "lyrics" then { d.current_ with lyrics := v.toString }
    else if id = "track" then { d.current_ with track := v.toInt }
    else if id = "disc" then { d.current_ with disc := v.toInt }
    else if id = "year" then { d.current_ with year := v.toInt }
    else if id = "compilation" then { d.current_ with compilation := v.toBool }
    else d.current_ }

/-- `Data::current_value`. -/
def Data.current_value (d : Data) (id : String) : QVariant := Data.value d.current_ id

/-- `Data::original_value`. -/
def Data.original_value (d : Data) (id : String) : QVariant := Data.value d.original_ id

/-- The field-key namespace of the editor (the object names of the bound
widgets). -/
def knownFieldKeys : List String :=
  ["title", "artist", "album", "albumartist", "composer", "performer",
   "grouping", "genre", "comment", "lyrics", "track", "disc", "year",
   "compilation"]

/-- The keys whose editors carry string values. -/
def stringFieldKeys : List String :=
  ["title", "artist", "album", "albumartist", "composer", "performer",
   "grouping", "genre", "comment", "lyrics"]

/-- The keys whose editors carry int values (spin boxes). -/
def intFieldKeys : List String := ["track", "disc", "year"]

/-- A variant is well typed for a field key when it carries the payload
kind the field's bound editor widget produces: a line/text edit yields a
string, a spin box an int, the compilation check box a bool. -/
def WellTypedFor (id : String) (v : QVariant) : Prop :=
  (id ∈ stringFieldKeys ∧ ∃ s, v = QVariant.str s) ∨
  (id ∈ intFieldKeys ∧ ∃ n, v = QVariant.int n) ∨
  (id = "compilation" ∧ ∃ b, v = QVariant.bool b)

/-- Access `data_[i]`; selections in the dialog always index into the
loaded entry list. -/
def getEntry (entries : List Data) (i : Nat) : Data := entries.getD i default

/-- `EditTagDialog::DoesValueVary`: compare every later selected entry's
current value against the first selected entry's. -/
def doesValueVary (entries : List Data) (sel : List Nat) (id : String) : Bool :=
  match sel with
  | [] => false
  | f :: rest =>
      rest.any fun i =>
        decide (¬ (getEntry entries f).current_value id = (getEntry entries i).current_value id)

/-- `EditTagDialog::IsValueModified`: true iff some selected entry's
original and current values differ for the field. -/
def isValueModified (entries : List Data) (sel : List Nat) (id : String) : Bool :=
  sel.any fun i =>
    decide (¬ (getEntry entries i).original_value id = (getEntry entries i).current_value id)

/-- The value/varies pair `InitFieldValue` derives for display: the first
selected entry's current value together with the divergence flag. -/
def fieldValue (entries : List Data) (sel : List Nat) (id : String) : QVariant × Bool :=
  ((getEntry entries (sel.headD 0)).current_value id, doesValueVary entries sel id)

/-- `EditTagDialog::UpdateFieldValue`: when the editor produced a valid
variant, write it into every selected entry's current record. -/
def updateFieldValue (entries : List Data) (sel : List Nat) (id : String) (v : QVariant) :
    List Data :=
  if v = QVariant.null then entries
  else sel.foldl (fun es i => es.set i ((getEntry es i).set_value id v)) entries

/-- `EditTagDialog::ResetFieldValue`: for each selected entry write the
original value back into the current record. -/
def resetFieldValue (entries : List Data) (sel : List Nat) (id : String) : List Data :=
  sel.foldl (fun es i => es.set i ((getEntry es i).set_value id ((getEntry es i).original_value id)))
    entries

/-- One iteration of the loop in `EditTagDialog::UpdateCoverOf` on entry
`i`: when `i` is not the selected row and the entry's original record
matches the selected song's (album-artist, album) key, the original's
manual-art URL is overwritten; in every iteration the entry's current
manual-art is then re-synced from its own original. -/
def coverEntryStep (selected : Song) (selRow : Nat) (cover_url : String) (i : Nat) (d : Data) :
    Data :=
  let d1 :=
    if i ≠ selRow ∧ selected.effective_albumartist = d.original_.effective_albumartist ∧
        selected.album = d.original_.album then
      { d with original_ := { d.original_ with art_manual := cover_url } }
    else d
  { d1 with current_ := { d1.current_ with art_manual := d1.original_.art_manual } }

/-- `EditTagDialog::UpdateCoverOf`: guarded on the selected song being a
valid catalog record; the loop body touches exactly entry `i` in
iteration `i`, so it is a `mapIdx`. -/
def updateCoverOf (entries : List Data) (selected : Song) (selRow : Nat) (cover_url : String) :
    List Data :=
  if selected.valid = false ∨ selected.id = -1 then entries
  else entries.mapIdx (coverEntryStep selected selRow cover_url)

/-! ### Commit (`SaveData` / `SongSaveComplete`) -/

/-- One asynchronous write-back request issued by `SaveData`: the
entry's current record keyed by its local file path. -/
structure WriteRequest where
  path : String
  record : Song
deriving DecidableEq, Repr

/-- Observable events of a commit run: the per-file error message
emitted on a failed write, the catalog upsert forwarded on a successful
write of a collection song, and the completion signal
(`AcceptFinished`). -/
inductive CommitEvent where
  | errorMsg : String → CommitEvent
  | upsert : Song → CommitEvent
  | finished : CommitEvent
deriving DecidableEq, Repr

/-- The commit bookkeeping: the `pending_` counter of outstanding writes
and the ordered trace of observable events so far. -/
structure CommitState where
  pending : Int
  events : List CommitEvent
deriving DecidableEq, Repr

/-- The message `SongSaveComplete` emits for a failed write
(`tr("An error occurred writing metadata to ...").arg(filename)`). -/
def errorMessage (filename : String) : String :=
  "An error occurred writing metadata to " ++ filename

/-- The write requests issued by the loop of `EditTagDialog::SaveData`:
one per entry whose current record is not metadata-equal to its
original. -/
def saveRequests (tag_data : List Data) : List WriteRequest :=
  tag_data.foldl
    (fun reqs d =>
      if d.current_.isMetadataEqual d.original_ then reqs
      else reqs ++ [{ path := d.current_.path, record := d.current_ }])
    []

/-- `EditTagDialog::SaveData`: issue the write requests, set `pending_`
to their number, and signal completion immediately when nothing is
pending. -/
def saveData (tag_data : List Data) : CommitState × List WriteRequest :=
  let reqs := saveRequests tag_data
  (⟨(reqs.length : Int),
    if (reqs.length : Int) ≤ 0 then [CommitEvent.finished] else []⟩, reqs)

/-- The completion callback data for one write: the saved file's name,
the record that was written, and whether the tag writer reported
success. -/
structure SaveOutcome where
  filename : String
  song : Song
  success : Bool
deriving DecidableEq, Repr

/-- `EditTagDialog::SongSaveComplete`: decrement `pending_`; on failure
emit the per-file error message, otherwise forward collection songs to
the catalog; signal completion when no write remains pending. -/
def songSaveComplete (st : CommitState) (o : SaveOutcome) : CommitState :=
  let pending := st.pending - 1
  let step :=
    if o.success = false then [CommitEvent.errorMsg (errorMessage o.filename)]
    else if o.song.is_collection then [CommitEvent.upsert o.song]
    else []
  let fin := if pending ≤ 0 then [CommitEvent.finished] else []
  ⟨pending, st.events ++ step ++ fin⟩

/-- A whole commit: `SaveData` followed by the delivery of a sequence of
write completions. -/
def runCommit (tag_data : List Data) (outcomes : List SaveOutcome) : CommitState :=
  outcomes.foldl songSaveComplete (saveData tag_data).1

/-- Number of completion signals in an event trace. -/
def finishedCount (evs : List CommitEvent) : Nat :=
  (evs.filter fun e => decide (e = CommitEvent.finished)).length

/-- The failed-file error messages of a trace, in emission order. -/
def errorsOf (evs : List CommitEvent) : List String :=
  evs.filterMap fun e =>
    match e with
    | CommitEvent.errorMsg m => some m
    | _ => none

/-- The catalog upserts of a trace, in emission order. -/
def upsertsOf (evs : List CommitEvent) : List Song :=
  evs.filterMap fun e =>
    match e with
    | CommitEvent.upsert s => some s
    | _ => none

/-! ### TidalCoverProvider -/

/-- The slice of `TidalService` the provider consults. -/
structure TidalSession where
  authenticated : Bool
  country_code : String
  access_token : String
deriving DecidableEq, Repr

/-- The search request `StartSearch` issues: the chosen REST resource
and the query parameters. -/
structure SearchRequest where
  resource : String
  query : String
  limit : Int
  countryCode : String
deriving DecidableEq, Repr

/-- `kLimit` in `tidalcoverprovider.cpp`. -/
def kLimit : Int := 10

/-- `TidalCoverProvider::StartSearch`: returns whether a request was
issued, together with the requests issued (zero or one). -/
def startSearch (service : Option TidalSession) (artist album title : String) :
    Bool × List SearchRequest :=
  match service with
  | none => (false, [])
  | some s =>
      if s.authenticated = false then (false, [])
      else if artist = "" ∧ album = "" ∧ title = "" then (false, [])
      else
        let rq :
            String × String :=
          if album = "" ∧ ¬ title = "" then
            ("search/tracks", if artist = "" then title else artist ++ " " ++ title)
          else
            ("search/albums",
              if album = "" then artist
              else if artist = "" then album else artist ++ " " ++ album)
        (true, [{ resource := rq.1, query := rq.2, limit := kLimit,
                  countryCode := s.country_code }])

/-- The provider's reply bookkeeping: the tags of the outstanding
`QNetworkReply` objects in `replies_`. -/
structure TidalProviderState where
  replies_ : List Nat
deriving DecidableEq, Repr

/-- `TidalCoverProvider::CancelSearch`: the body ignores its argument
(`Q_UNUSED(id)`) and does nothing. -/
def cancelSearch (st : TidalProviderState) (id : Int) : TidalProviderState :=
  st

/-- An abstract cover search result list, standing for the parsed
candidate descriptors; its contents do not matter for the delivery
claims. -/
structure CoverResults where
  results : List (String × String)
deriving DecidableEq, Repr

/-- `TidalCoverProvider::HandleSearchReply`: a reply still tracked in
`replies_` is removed and a `SearchFinished(id, results)` signal is
emitted on every code path (with empty results on parse or network
failure); an untracked reply is ignored.  The parsed payload is passed
in abstractly as `parsed`. -/
def handleSearchReply (st : TidalProviderState) (replyTag : Nat) (id : Int)
    (parsed : CoverResults) : TidalProviderState × List (Int × CoverResults) :=
  if replyTag ∈ st.replies_ then
    (⟨st.replies_.filter fun t => decide (¬ t = replyTag)⟩, [(id, parsed)])
  else (st, [])

/-! ### Helper lemmas about the field dispatch -/

theorem set_value_original (d : Data) (id : String) (v : QVariant) :
    (d.set_value id v).original_ = d.original_ := rfl

theorem original_value_set_value (d : Data) (id id2 : String) (v : QVariant) :
    (d.set_value id v).original_value id2 = d.original_value id2 := by
  unfold Data.original_value
  rw [set_value_original]

theorem set_value_unknown (d : Data) (id : String) (v : QVariant)
    (h : ¬ id ∈ knownFieldKeys) : d.set_value id v = d := by
  simp only [knownFieldKeys, List.mem_cons, List.not_mem_nil, or_false, not_or] at h
  obtain ⟨h1, h2, h3, h4, h5, h6, h7, h8, h9, h10, h11, h12, h13, h14⟩ := h
  simp [Data.set_value, h1, h2, h3, h4, h5, h6, h7, h8, h9, h10, h11, h12, h13, h14]

theorem wellTypedFor_ne_null (id : String) (v : QVariant) (h : WellTypedFor id v) :
    ¬ v = QVariant.null := by
  rcases h with ⟨_, s, rfl⟩ | ⟨_, n, rfl⟩ | ⟨_, b, rfl⟩ <;> intro hc <;> cases hc

theorem set_value_roundtrip (d : Data) (id : String) (v : QVariant)
    (h : WellTypedFor id v) : (d.set_value id v).current_value id = v := by
  rcases h with ⟨hm, s, rfl⟩ | ⟨hm, n, rfl⟩ | ⟨rfl, b, rfl⟩
  · simp only [stringFieldKeys, List.mem_cons, List.not_mem_nil, or_false] at hm
    rcases hm with rfl | rfl | rfl | rfl | rfl | rfl | rfl | rfl | rfl | rfl <;> rfl
  · simp only [intFieldKeys, List.mem_cons, List.not_mem_nil, or_false] at hm
    rcases hm with rfl | rfl | rfl <;> rfl
  · rfl

theorem set_value_reset_synced (d : Data) (id : String) (h : id ∈ knownFieldKeys) :
    (d.set_value id (d.original_value id)).current_value id = d.original_value id := by
  simp only [knownFieldKeys, List.mem_cons, List.not_mem_nil, or_false] at h
  rcases h with rfl | rfl | rfl | rfl | rfl | rfl | rfl | rfl | rfl | rfl | rfl | rfl | rfl | rfl <;>
    rfl

/-! ### Helper lemmas about indexed access -/

theorem getEntry_set_self {es : List Data} {i : Nat} {a : Data} (h : i < es.length) :
    getEntry (es.set i a) i = a := by
  unfold getEntry
  rw [List.getD_eq_getElem?_getD, List.getElem?_set_self h]
  rfl

theorem getEntry_set_ne {es : List Data} {i j : Nat} {a : Data} (h : ¬ i = j) :
    getEntry (es.set i a) j = getEntry es j := by
  unfold getEntry
  rw [List.getD_eq_getElem?_getD, List.getElem?_set_ne h, List.getD_eq_getElem?_getD]

theorem getEntry_mapIdx (F : Nat → Data → Data) (es : List Data) (j : Nat)
    (h : j < es.length) : getEntry (es.mapIdx F) j = F j (getEntry es j) := by
  have h' : j < (es.mapIdx F).length := by
    simpa [List.length_mapIdx] using h
  unfold getEntry
  rw [List.getD_eq_getElem?_getD, List.getD_eq_getElem?_getD,
    List.getElem?_eq_getElem h', List.getElem?_eq_getElem h]
  simpa using List.get_mapIdx es F j h h'

theorem foldl_setF_length (F : Data → Data) (sel : List Nat) (es : List Data) :
    (sel.foldl (fun es i => es.set i (F (getEntry es i))) es).length = es.length := by
  induction sel generalizing es with
  | nil => rfl
  | cons i rest ih => rw [List.foldl_cons, ih, List.length_set]

theorem foldl_setF_original (F : Data → Data) (hF : ∀ d, (F d).original_ = d.original_)
    (sel : List Nat) (es : List Data) (j : Nat) :
    (getEntry (sel.foldl (fun es i => es.set i (F (getEntry es i))) es) j).original_ =
      (getEntry es j).original_ := by
  induction sel generalizing es with
  | nil => rfl
  | cons i rest ih =>
      rw [List.foldl_cons, ih]
      by_cases hij : i = j
      · subst hij
        by_cases hl : i < es.length
        · rw [getEntry_set_self hl, hF]
        · rw [List.set_eq_of_length_le (Nat.le_of_not_lt hl)]
      · rw [getEntry_set_ne hij]

theorem updateFieldValue_length (entries : List Data) (sel : List Nat) (id : String)
    (v : QVariant) : (updateFieldValue entries sel id v).length = entries.length := by
  unfold updateFieldValue
  split
  · rfl
  · exact foldl_setF_length (fun d => d.set_value id v) sel entries

theorem applySets_length (entries0 : List Data) (calls : List (List Nat × QVariant))
    (id : String) :
    (calls.foldl (fun es c => updateFieldValue es c.1 id c.2) entries0).length =
      entries0.length := by
  induction calls generalizing entries0 with
  | nil => rfl
  | cons c cs ih => rw [List.foldl_cons, ih, updateFieldValue_length]

theorem reset_entry_synced (d : Data) (id : String) (hid : id ∈ knownFieldKeys) :
    (d.set_value id (d.original_value id)).current_value id =
      (d.set_value id (d.original_value id)).original_value id := by
  rw [original_value_set_value, set_value_reset_synced d id hid]

theorem resetFold_synced_preserved (id : String) (hid : id ∈ knownFieldKeys) (sel : List Nat)
    (es : List Data) (j : Nat)
    (hj : (getEntry es j).current_value id = (getEntry es j).original_value id) :
    (getEntry (sel.foldl
        (fun es i => es.set i ((getEntry es i).set_value id ((getEntry es i).original_value id)))
        es) j).current_value id =
      (getEntry (sel.foldl
        (fun es i => es.set i ((getEntry es i).set_value id ((getEntry es i).original_value id)))
        es) j).original_value id := by
  induction sel generalizing es with
  | nil => exact hj
  | cons i rest ih =>
      rw [List.foldl_cons]
      apply ih
      by_cases hij : i = j
      · subst hij
        by_cases hl : i < es.length
        · rw [getEntry_set_self hl]
          exact reset_entry_synced _ id hid
        · rw [List.set_eq_of_length_le (Nat.le_of_not_lt hl)]
          exact hj
      · rw [getEntry_set_ne hij]
        exact hj

theorem resetFold_synced (id : String) (hid : id ∈ knownFieldKeys) (sel : List Nat)
    (es : List Data) (hlen : ∀ i ∈ sel, i < es.length) (j : Nat) (hj : j ∈ sel) :
    (getEntry (resetFieldValue es sel id) j).current_value id =
      (getEntry (resetFieldValue es sel id) j).original_value id := by
  induction sel generalizing es with
  | nil => cases hj
  | cons i rest ih =>
      show (getEntry ((i :: rest).foldl _ es) j).current_value id = _
      rw [List.foldl_cons]
      rcases List.mem_cons.mp hj with rfl | hjr
      · apply resetFold_synced_preserved id hid rest
        have hl : j < es.length := hlen j (List.mem_cons_self j rest)
        rw [getEntry_set_self hl]
        exact reset_entry_synced _ id hid
      · exact ih _ (fun k hk => by rw [List.length_set]; exact hlen k (List.mem_cons_of_mem _ hk))
          hjr

/-! ### Claim theorems -/

/-- C3: for a non-empty selection and a field key, `FieldValue` returns
the current value of the field for the first selected entry together
with `varies`, which is true iff some other selected entry's current
value differs from the first selected entry's; consequently, on a
single-entry selection, `SetFieldValue` of a well-typed value `v`
followed by `FieldValue` returns `v` with `varies = false`. -/
theorem fieldValue_first_and_varies (entries : List Data) (f : Nat) (rest : List Nat)
    (id : String) (i : Nat) (v : QVariant) (hi : i < entries.length)
    (hv : WellTypedFor id v) :
    fieldValue entries (f :: rest) id =
      ((getEntry entries f).current_value id, doesValueVary entries (f :: rest) id) ∧
    (doesValueVary entries (f :: rest) id = true ↔
      ∃ j ∈ rest,
        ¬ (getEntry entries j).current_value id = (getEntry entries f).current_value id) ∧
    fieldValue (updateFieldValue entries [i] id v) [i] id = (v, false) := by
  refine ⟨rfl, ?_, ?_⟩
  · unfold doesValueVary
    simp only [List.any_eq_true, decide_eq_true_eq]
    constructor
    · rintro ⟨j, hj, hne⟩
      exact ⟨j, hj, fun hc => hne hc.symm⟩
    · rintro ⟨j, hj, hne⟩
      exact ⟨j, hj, fun hc => hne hc.symm⟩
  · have hvn := wellTypedFor_ne_null id v hv
    unfold updateFieldValue
    rw [if_neg hvn]
    show (((getEntry (entries.set i ((getEntry entries i).set_value id v)) i).current_value id),
      (false : Bool)) = (v, false)
    rw [getEntry_set_self hi, set_value_roundtrip _ _ _ hv]

/-- Witness for C3 at a concrete single-entry state: setting `genre` to
`Jazz` and reading it back yields `Jazz` with `varies = false`. -/
theorem fieldValue_first_and_varies_witness :
    (0 : Nat) < ([Data.mk0 default] : List Data).length ∧
    WellTypedFor "genre" (QVariant.str "Jazz") ∧
    fieldValue (updateFieldValue [Data.mk0 default] [0] "genre" (QVariant.str "Jazz")) [0]
      "genre" = (QVariant.str "Jazz", false) :=
  ⟨by decide, Or.inl ⟨by decide, "Jazz", rfl⟩,
    (fieldValue_first_and_varies [Data.mk0 default] 0 [] "genre" 0 (QVariant.str "Jazz")
      (by decide) (Or.inl ⟨by decide, "Jazz", rfl⟩)).2.2⟩

/-- C4: `IsModified` is true iff at least one selected entry's current
value differs from its original value for the field; it is false for
the empty selection (and hence whenever all selected entries match). -/
theorem isValueModified_iff (entries : List Data) (sel : List Nat) (id : String) :
    (isValueModified entries sel id = true ↔
      ∃ i ∈ sel,
        ¬ (getEntry entries i).current_value id = (getEntry entries i).original_value id) ∧
    isValueModified entries [] id = false := by
  refine ⟨?_, rfl⟩
  unfold isValueModified
  simp only [List.any_eq_true, decide_eq_true_eq]
  constructor
  · rintro ⟨i, hi, hne⟩
    exact ⟨i, hi, fun hc => hne hc.symm⟩
  · rintro ⟨i, hi, hne⟩
    exact ⟨i, hi, fun hc => hne hc.symm⟩

/-- C5: for a known field key, `ResetField` after any finite sequence of
`SetFieldValue` calls on that field restores `current = original` for
the field on every selected entry, and `IsModified` for the field over
the selection is false afterwards. -/
theorem resetField_restores (entries0 entries : List Data)
    (calls : List (List Nat × QVariant)) (sel : List Nat) (id : String)
    (hid : id ∈ knownFieldKeys) (hlen : ∀ i ∈ sel, i < entries0.length)
    (hentries : entries =
      calls.foldl (fun es c => updateFieldValue es c.1 id c.2) entries0) :
    (∀ j ∈ sel, (getEntry (resetFieldValue entries sel id) j).current_value id =
      (getEntry (resetFieldValue entries sel id) j).original_value id) ∧
    isValueModified (resetFieldValue entries sel id) sel id = false := by
  have hlen' : ∀ i ∈ sel, i < entries.length := by
    intro i hi
    rw [hentries, applySets_length]
    exact hlen i hi
  have hsync := fun j hj => resetFold_synced id hid sel entries hlen' j hj
  refine ⟨hsync, ?_⟩
  unfold isValueModified
  simp only [List.any_eq_false, decide_eq_true_eq, not_not]
  intro i hi
  exact (hsync i hi).symm

/-- Witness for C5 at a concrete state: one entry, `genre` set to `Jazz`
then reset; the field is unmodified afterwards. -/
theorem resetField_restores_witness :
    "genre" ∈ knownFieldKeys ∧
    isValueModified
      (resetFieldValue
        ([([0], QVariant.str "Jazz")].foldl
          (fun es c => updateFieldValue es c.1 "genre" c.2) [Data.mk0 default])
        [0] "genre") [0] "genre" = false :=
  ⟨by decide,
    (resetField_restores [Data.mk0 default] _ [([0], QVariant.str "Jazz")] [0] "genre"
      (by decide) (by decide) rfl).2⟩

/-- C6: a field edit leaves the `original` record unchanged — both for a
single `set_value` and across a whole-selection `SetFieldValue` — and an
unknown field key is a logged no-op that changes neither record. -/
theorem field_edit_frame (d : Data) (entries : List Data) (sel : List Nat) (j : Nat)
    (id : String) (v : QVariant) :
    (d.set_value id v).original_ = d.original_ ∧
    (¬ id ∈ knownFieldKeys → d.set_value id v = d) ∧
    (getEntry (updateFieldValue entries sel id v) j).original_ =
      (getEntry entries j).original_ := by
  refine ⟨set_value_original d id v, set_value_unknown d id v, ?_⟩
  unfold updateFieldValue
  split
  · rfl
  · exact foldl_setF_original (fun d => d.set_value id v)
      (fun d => set_value_original d id v) sel entries j

/-- Witness for C6 at a concrete input: the unknown key `rating` leaves
the entry untouched. -/
theorem field_edit_frame_witness :
    ¬ "rating" ∈ knownFieldKeys ∧
    (Data.mk0 default).set_value "rating" (QVariant.str "x") = Data.mk0 default :=
  ⟨by decide,
    (field_edit_frame (Data.mk0 default) [] [] 0 "rating" (QVariant.str "x")).2.1 (by decide)⟩

/-- C9: `SetCoverArt` on an entry whose original record is invalid or
carries no catalog id (`id = -1`) performs no album-wide propagation and
no current/original re-synchronization: the entry collection — in
particular every entry's original and current manual-art field — is left
unchanged. -/
theorem updateCoverOf_invalid_noop (entries : List Data) (selected : Song) (selRow : Nat)
    (url : String) (h : selected.valid = false ∨ selected.id = -1) :
    updateCoverOf entries selected selRow url = entries ∧
    (∀ j, (getEntry (updateCoverOf entries selected selRow url) j).original_.art_manual =
        (getEntry entries j).original_.art_manual ∧
      (getEntry (updateCoverOf entries selected selRow url) j).current_.art_manual =
        (getEntry entries j).current_.art_manual) := by
  have he : updateCoverOf entries selected selRow url = entries := by
    unfold updateCoverOf
    rw [if_pos h]
  exact ⟨he, fun j => by rw [he]; exact ⟨rfl, rfl⟩⟩

/-- Witness for C9 at a concrete input: an uncataloged (id = -1) song
triggers no change at all. -/
theorem updateCoverOf_invalid_noop_witness :
    ((default : Song).valid = false ∨ (default : Song).id = -1) ∧
    updateCoverOf [Data.mk0 default] default 0 "http://img/x.jpg" = [Data.mk0 default] :=
  ⟨Or.inl (by decide),
    (updateCoverOf_invalid_noop [Data.mk0 default] default 0 "http://img/x.jpg"
      (Or.inl (by decide))).1⟩

/-- C2: `SetCoverArt` on a valid, cataloged entry `E` with url `U` sets
the original manual-art field of every other entry whose (album-artist,
album) pair equals `E`'s original pair to `U`, leaves the original
manual-art of every entry whose album-artist or album differs unchanged,
and afterwards every entry's current manual-art field equals that
entry's own original manual-art field. -/
theorem updateCoverOf_propagates (entries : List Data) (selected : Song) (selRow : Nat)
    (url : String) (hsel : selected = (getEntry entries selRow).original_)
    (hvalid : selected.valid = true) (hid : ¬ selected.id = -1) :
    (∀ j, j < entries.length → ¬ j = selRow →
      selected.effective_albumartist = (getEntry entries j).original_.effective_albumartist →
      selected.album = (getEntry entries j).original_.album →
      (getEntry (updateCoverOf entries selected selRow url) j).original_.art_manual = url) ∧
    (∀ j, j < entries.length →
      (¬ selected.effective_albumartist =
          (getEntry entries j).original_.effective_albumartist ∨
        ¬ selected.album = (getEntry entries j).original_.album) →
      (getEntry (updateCoverOf entries selected selRow url) j).original_.art_manual =
        (getEntry entries j).original_.art_manual) ∧
    (∀ j, j < entries.length →
      (getEntry (updateCoverOf entries selected selRow url) j).current_.art_manual =
        (getEntry (updateCoverOf entries selected selRow url) j).original_.art_manual) := by
  have hguard : ¬ (selected.valid = false ∨ selected.id = -1) := by
    rw [hvalid]
    simp [hid]
  have hu : updateCoverOf entries selected selRow url =
      entries.mapIdx (coverEntryStep selected selRow url) := by
    unfold updateCoverOf
    rw [if_neg hguard]
  refine ⟨?_, ?_, ?_⟩
  · intro j hj hne hart halb
    rw [hu, getEntry_mapIdx _ _ _ hj]
    simp only [coverEntryStep]
    rw [if_pos ⟨hne, hart, halb⟩]
  · intro j hj hmis
    rw [hu, getEntry_mapIdx _ _ _ hj]
    simp only [coverEntryStep]
    rw [if_neg ?_]
    rintro ⟨h1, h2, h3⟩
    rcases hmis with h | h
    · exact h h2
    · exact h h3
  · intro j hj
    rw [hu, getEntry_mapIdx _ _ _ hj]
    simp only [coverEntryStep]

/-- A valid catalog track of album "X" by album-artist "Y" (file 1). -/
def songAlbumX1 : Song :=
  { (default : Song) with
    albumartist := "Y", album := "X", valid := true, id := 1, path := "f1" }

/-- A second valid catalog track of the same album (file 2). -/
def songAlbumX2 : Song :=
  { (default : Song) with
    albumartist := "Y", album := "X", valid := true, id := 2, path := "f2" }

/-- The two-track session used by the C2 witness. -/
def entriesAlbumX : List Data := [Data.mk0 songAlbumX1, Data.mk0 songAlbumX2]

/-- Witness for C2 at a concrete input: two loaded tracks of the same
album; assigning cover art on track 1 propagates to track 2's original
manual-art field. -/
theorem updateCoverOf_propagates_witness :
    (getEntry entriesAlbumX 0).original_.valid = true ∧
    (getEntry (updateCoverOf entriesAlbumX (getEntry entriesAlbumX 0).original_ 0
        "http://img/x.jpg") 1).original_.art_manual = "http://img/x.jpg" :=
  ⟨by decide,
    (updateCoverOf_propagates entriesAlbumX _ 0 "http://img/x.jpg" rfl (by decide)
      (by decide)).1 1 (by decide) (by decide) (by decide) (by decide)⟩

/-! ### Commit-run lemmas -/

theorem songSaveComplete_pending (st : CommitState) (o : SaveOutcome) :
    (songSaveComplete st o).pending = st.pending - 1 := rfl

theorem songSaveComplete_events (st : CommitState) (o : SaveOutcome) :
    (songSaveComplete st o).events = st.events ++
      (if o.success = false then [CommitEvent.errorMsg (errorMessage o.filename)]
        else if o.song.is_collection then [CommitEvent.upsert o.song] else []) ++
      (if st.pending - 1 ≤ 0 then [CommitEvent.finished] else []) := rfl

theorem foldl_songSaveComplete_pending (outcomes : List SaveOutcome) (st : CommitState) :
    (outcomes.foldl songSaveComplete st).pending = st.pending - outcomes.length := by
  induction outcomes generalizing st with
  | nil => simp
  | cons o os ih =>
      rw [List.foldl_cons, ih, songSaveComplete_pending, List.length_cons]
      push_cast
      ring

theorem finishedCount_append (a b : List CommitEvent) :
    finishedCount (a ++ b) = finishedCount a + finishedCount b := by
  simp [finishedCount, List.filter_append]

theorem finishedCount_stepChunk (o : SaveOutcome) :
    finishedCount
      (if o.success = false then [CommitEvent.errorMsg (errorMessage o.filename)]
        else if o.song.is_collection then [CommitEvent.upsert o.song] else []) = 0 := by
  split
  · rfl
  · split <;> rfl

theorem foldl_no_finish (outcomes : List SaveOutcome) (st : CommitState)
    (h : (outcomes.length : Int) < st.pending) :
    finishedCount (outcomes.foldl songSaveComplete st).events = finishedCount st.events := by
  induction outcomes generalizing st with
  | nil => rfl
  | cons o os ih =>
      rw [List.foldl_cons]
      have hlen : ((os.length : Int)) < (songSaveComplete st o).pending := by
        rw [songSaveComplete_pending]
        simp only [List.length_cons] at h
        push_cast at h ⊢
        omega
      have hfin : ¬ (st.pending - 1 ≤ 0) := by
        simp only [List.length_cons] at h
        have h0 : (0 : Int) ≤ (os.length : Int) := Int.ofNat_nonneg _
        push_cast at h
        omega
      rw [ih _ hlen, songSaveComplete_events, if_neg hfin, List.append_nil,
        finishedCount_append, finishedCount_stepChunk, Nat.add_zero]

theorem foldl_one_finish (outcomes : List SaveOutcome) (st : CommitState)
    (hlen : (outcomes.length : Int) = st.pending) (hpos : 0 < st.pending) :
    finishedCount (outcomes.foldl songSaveComplete st).events =
      finishedCount st.events + 1 := by
  induction outcomes generalizing st with
  | nil =>
      simp only [List.length_nil, Nat.cast_zero] at hlen
      omega
  | cons o os ih =>
      rw [List.foldl_cons]
      rcases Decidable.em (os = []) with rfl | hne
      · simp only [List.foldl_nil]
        simp only [List.length_cons, List.length_nil] at hlen
        have hp1 : st.pending - 1 ≤ 0 := by
          push_cast at hlen
          omega
        rw [songSaveComplete_events, if_pos hp1, finishedCount_append,
          finishedCount_append, finishedCount_stepChunk]
        have hone : finishedCount [CommitEvent.finished] = 1 := rfl
        omega
      · have hlen' : ((os.length : Int)) = (songSaveComplete st o).pending := by
          rw [songSaveComplete_pending]
          simp only [List.length_cons] at hlen
          push_cast at hlen ⊢
          omega
        have hoslen : 0 < os.length := List.length_pos.mpr hne
        have hpos' : 0 < (songSaveComplete st o).pending := by
          rw [songSaveComplete_pending]
          simp only [List.length_cons] at hlen
          push_cast at hlen
          omega
        have hfin : ¬ (st.pending - 1 ≤ 0) := by
          rw [songSaveComplete_pending] at hpos'
          omega
        rw [ih _ hlen' hpos', songSaveComplete_events, if_neg hfin, List.append_nil,
          finishedCount_append, finishedCount_stepChunk, Nat.add_zero]

theorem errorsOf_append (a b : List CommitEvent) :
    errorsOf (a ++ b) = errorsOf a ++ errorsOf b := by
  simp [errorsOf, List.filterMap_append]

theorem upsertsOf_append (a b : List CommitEvent) :
    upsertsOf (a ++ b) = upsertsOf a ++ upsertsOf b := by
  simp [upsertsOf, List.filterMap_append]

theorem errorsOf_stepChunk (o : SaveOutcome) :
    errorsOf
      (if o.success = false then [CommitEvent.errorMsg (errorMessage o.filename)]
        else if o.song.is_collection then [CommitEvent.upsert o.song] else []) =
      if (! o.success) = true then [errorMessage o.filename] else [] := by
  by_cases hs : o.success = false
  · rw [if_pos hs, if_pos (by rw [hs]; rfl)]
    rfl
  · have hs' : o.success = true := by simpa using hs
    simp [hs', apply_ite errorsOf, errorsOf]

theorem errorsOf_finChunk (c : Prop) [Decidable c] :
    errorsOf (if c then [CommitEvent.finished] else []) = [] := by
  split
  · rfl
  · rfl

theorem upsertsOf_stepChunk (o : SaveOutcome) :
    upsertsOf
      (if o.success = false then [CommitEvent.errorMsg (errorMessage o.filename)]
        else if o.song.is_collection then [CommitEvent.upsert o.song] else []) =
      if (o.success && o.song.is_collection) = true then [o.song] else [] := by
  by_cases hs : o.success = false
  · rw [if_pos hs, if_neg (by simp [hs])]
    rfl
  · have hs' : o.success = true := by simpa using hs
    rw [if_neg hs]
    by_cases hc : o.song.is_collection = true
    · rw [if_pos hc, if_pos (by simp [hs', hc])]
      rfl
    · rw [if_neg hc, if_neg (by simp [hc])]
      rfl

theorem upsertsOf_finChunk (c : Prop) [Decidable c] :
    upsertsOf (if c then [CommitEvent.finished] else []) = [] := by
  split
  · rfl
  · rfl

theorem foldl_errorsOf (outcomes : List SaveOutcome) (st : CommitState) :
    errorsOf (outcomes.foldl songSaveComplete st).events =
      errorsOf st.events ++
        (outcomes.filter fun o => ! o.success).map (fun o => errorMessage o.filename) := by
  induction outcomes generalizing st with
  | nil => simp
  | cons o os ih =>
      rw [List.foldl_cons, ih, songSaveComplete_events, errorsOf_append, errorsOf_append,
        errorsOf_stepChunk, errorsOf_finChunk, List.filter_cons]
      by_cases hs : (! o.success) = true
      · rw [if_pos hs, if_pos hs]
        simp [List.append_assoc]
      · rw [if_neg hs, if_neg hs]
        simp [List.append_assoc]

theorem foldl_upsertsOf (outcomes : List SaveOutcome) (st : CommitState) :
    upsertsOf (outcomes.foldl songSaveComplete st).events =
      upsertsOf st.events ++
        (outcomes.filter fun o => o.success && o.song.is_collection).map
          (fun o => o.song) := by
  induction outcomes generalizing st with
  | nil => simp
  | cons o os ih =>
      rw [List.foldl_cons, ih, songSaveComplete_events, upsertsOf_append, upsertsOf_append,
        upsertsOf_stepChunk, upsertsOf_finChunk, List.filter_cons]
      by_cases hs : (o.success && o.song.is_collection) = true
      · rw [if_pos hs, if_pos hs]
        simp [List.append_assoc]
      · rw [if_neg hs, if_neg hs]
        simp [List.append_assoc]

theorem saveRequests_go (tag_data : List Data) (acc : List WriteRequest) :
    tag_data.foldl
      (fun reqs d =>
        if d.current_.isMetadataEqual d.original_ then reqs
        else reqs ++ [{ path := d.current_.path, record := d.current_ }]) acc =
    acc ++ (tag_data.filter fun d => ! d.current_.isMetadataEqual d.original_).map
      (fun d => { path := d.current_.path, record := d.current_ }) := by
  induction tag_data generalizing acc with
  | nil => simp
  | cons d ds ih =>
      rw [List.foldl_cons, List.filter_cons]
      by_cases h : d.current_.isMetadataEqual d.original_ = true
      · rw [if_pos h, ih, if_neg (by simp [h])]
      · rw [if_neg h, ih, if_pos (by simpa using h)]
        simp [List.append_assoc]

theorem saveRequests_eq (tag_data : List Data) :
    saveRequests tag_data =
      (tag_data.filter fun d => ! d.current_.isMetadataEqual d.original_).map
        (fun d => { path := d.current_.path, record := d.current_ }) := by
  have h := saveRequests_go tag_data []
  simpa [saveRequests] using h

/-- C1: over a collection in which exactly K entries are modified
(current not metadata-equal to original), `Commit` issues exactly K
write requests — one per modified entry, carrying that entry's current
record keyed by its file path — and signals completion exactly once,
only after all K write completions have arrived, regardless of how many
succeed or fail; with K = 0 no write is issued and completion is
signaled immediately. -/
theorem commit_requests_and_signal (tag_data : List Data) (outcomes : List SaveOutcome)
    (K : Nat)
    (hK : K = (tag_data.filter fun d => ! d.current_.isMetadataEqual d.original_).length)
    (hout : outcomes.length = K) :
    (saveData tag_data).2 =
      (tag_data.filter fun d => ! d.current_.isMetadataEqual d.original_).map
        (fun d => { path := d.current_.path, record := d.current_ }) ∧
    (saveData tag_data).2.length = K ∧
    (K = 0 → (saveData tag_data).2 = [] ∧
      (saveData tag_data).1.events = [CommitEvent.finished]) ∧
    (0 < K → (saveData tag_data).1.events = []) ∧
    finishedCount (runCommit tag_data outcomes).events = 1 ∧
    (∀ j, j < K → finishedCount (runCommit tag_data (outcomes.take j)).events = 0) := by
  have h2 : (saveData tag_data).2 = saveRequests tag_data := rfl
  have hlenreq : (saveRequests tag_data).length = K := by
    rw [saveRequests_eq, List.length_map, hK]
  have hpend : (saveData tag_data).1.pending = ((saveRequests tag_data).length : Int) := rfl
  have hev : (saveData tag_data).1.events =
      if ((saveRequests tag_data).length : Int) ≤ 0 then [CommitEvent.finished] else [] := rfl
  refine ⟨by rw [h2, saveRequests_eq], by rw [h2, hlenreq], ?_, ?_, ?_, ?_⟩
  · intro h0
    refine ⟨?_, ?_⟩
    · rw [h2]
      exact List.eq_nil_of_length_eq_zero (by rw [hlenreq, h0])
    · rw [hev, hlenreq, h0]
      norm_num
  · intro hKpos
    rw [hev, hlenreq]
    rw [if_neg (by push_cast; omega)]
  · unfold runCommit
    rcases Nat.eq_zero_or_pos K with h0 | hKpos
    · have : outcomes = [] := List.eq_nil_of_length_eq_zero (by rw [hout, h0])
      subst this
      simp only [List.foldl_nil]
      rw [hev, hlenreq, h0]
      norm_num
      rfl
    · rw [foldl_one_finish outcomes _ (by rw [hpend, hlenreq, hout]) (by rw [hpend, hlenreq]; push_cast; omega)]
      rw [hev, hlenreq, if_neg (by push_cast; omega)]
      rfl
  · intro j hj
    unfold runCommit
    have hKpos : 0 < K := Nat.lt_of_le_of_lt (Nat.zero_le j) hj
    have htake : (outcomes.take j).length = j := by
      rw [List.length_take, hout]
      omega
    rw [foldl_no_finish _ _ (by rw [hpend, hlenreq, htake]; push_cast; omega)]
    rw [hev, hlenreq, if_neg (by push_cast; omega)]
    rfl

/-- A commit entry for file `p` whose current record changed its title
to `t` (hence metadata-unequal to its original), optionally a
catalog-tracked (collection) song. -/
def commitEntry (p t : String) (coll : Bool) : Data :=
  ⟨{ (default : Song) with path := p, is_collection := coll },
   { (default : Song) with path := p, is_collection := coll, title := t }⟩

/-- An unmodified commit entry for file `p`. -/
def cleanEntry (p : String) : Data :=
  Data.mk0 { (default : Song) with path := p }

/-- Witness for C1 at a concrete input: a session with one modified and
one clean entry issues exactly one write and signals completion once
after its single completion. -/
theorem commit_requests_and_signal_witness :
    (1 : Nat) =
      (([commitEntry "f1" "t" false, cleanEntry "f0"].filter
        fun d => ! d.current_.isMetadataEqual d.original_).length) ∧
    ([⟨"f1", (commitEntry "f1" "t" false).current_, true⟩] : List SaveOutcome).length = 1 ∧
    finishedCount (runCommit [commitEntry "f1" "t" false, cleanEntry "f0"]
      [⟨"f1", (commitEntry "f1" "t" false).current_, true⟩]).events = 1 :=
  ⟨by decide, by decide,
    (commit_requests_and_signal [commitEntry "f1" "t" false, cleanEntry "f0"]
      [⟨"f1", (commitEntry "f1" "t" false).current_, true⟩] 1 (by decide)
      (by decide)).2.2.2.2.1⟩

/-- C7 is false as stated: in a three-file commit in which file 2's
write fails, the error message naming file 2 is emitted as soon as file
2's completion arrives, while the third write is still pending
(`pending = 1`) and completion has not yet been signaled — not "only
after the whole commit completes". -/
theorem commit_error_before_completion :
    errorsOf (runCommit
      [commitEntry "f1" "a" true, commitEntry "f2" "b" true, commitEntry "f3" "c" true]
      [⟨"f1", (commitEntry "f1" "a" true).current_, true⟩,
       ⟨"f2", (commitEntry "f2" "b" true).current_, false⟩]).events =
      [errorMessage "f2"] ∧
    (runCommit
      [commitEntry "f1" "a" true, commitEntry "f2" "b" true, commitEntry "f3" "c" true]
      [⟨"f1", (commitEntry "f1" "a" true).current_, true⟩,
       ⟨"f2", (commitEntry "f2" "b" true).current_, false⟩]).pending = 1 ∧
    finishedCount (runCommit
      [commitEntry "f1" "a" true, commitEntry "f2" "b" true, commitEntry "f3" "c" true]
      [⟨"f1", (commitEntry "f1" "a" true).current_, true⟩,
       ⟨"f2", (commitEntry "f2" "b" true).current_, false⟩]).events = 0 := by
  refine ⟨?_, ?_, ?_⟩ <;> rfl

/-- C7 amended: write failures are per-file and non-fatal — every
completion is processed, successful writes of catalog-tracked records
are forwarded for upsert, and completion is still signaled exactly once
after all completions — but each failure's user-visible error message,
naming exactly that file, is emitted at the moment that file's
completion arrives (one message per failed file, possibly before the
commit completes), not as one aggregated message afterwards. -/
theorem commit_failure_handling (tag_data : List Data) (outcomes : List SaveOutcome)
    (hout : (outcomes.length : Int) = (saveData tag_data).1.pending) :
    errorsOf (runCommit tag_data outcomes).events =
      (outcomes.filter fun o => ! o.success).map (fun o => errorMessage o.filename) ∧
    upsertsOf (runCommit tag_data outcomes).events =
      (outcomes.filter fun o => o.success && o.song.is_collection).map (fun o => o.song) ∧
    finishedCount (runCommit tag_data outcomes).events = 1 := by
  have hpend : (saveData tag_data).1.pending = ((saveRequests tag_data).length : Int) := rfl
  have hev : (saveData tag_data).1.events =
      if ((saveRequests tag_data).length : Int) ≤ 0 then [CommitEvent.finished] else [] := rfl
  refine ⟨?_, ?_, ?_⟩
  · unfold runCommit
    rw [foldl_errorsOf]
    have : errorsOf (saveData tag_data).1.events = [] := by
      rw [hev]
      exact errorsOf_finChunk _
    rw [this, List.nil_append]
  · unfold runCommit
    rw [foldl_upsertsOf]
    have : upsertsOf (saveData tag_data).1.events = [] := by
      rw [hev]
      exact upsertsOf_finChunk _
    rw [this, List.nil_append]
  · unfold runCommit
    rcases Nat.eq_zero_or_pos (saveRequests tag_data).length with h0 | hpos
    · have houtnil : outcomes = [] := by
        apply List.eq_nil_of_length_eq_zero
        rw [hpend, h0] at hout
        push_cast at hout
        omega
      subst houtnil
      simp only [List.foldl_nil]
      rw [hev, h0]
      norm_num
      rfl
    · rw [foldl_one_finish outcomes _ (by rw [hout]) (by rw [hpend]; push_cast; omega)]
      rw [hev, if_neg (by push_cast; omega)]
      rfl

/-- Witness for C7 (amended) at a concrete input: three modified
catalog-tracked files, file 2 fails; the error list names file 2 only
and the two successful records are upserted. -/
theorem commit_failure_handling_witness :
    (([⟨"f1", (commitEntry "f1" "a" true).current_, true⟩,
        ⟨"f2", (commitEntry "f2" "b" true).current_, false⟩,
        ⟨"f3", (commitEntry "f3" "c" true).current_, true⟩] : List SaveOutcome).length : Int) =
      (saveData [commitEntry "f1" "a" true, commitEntry "f2" "b" true,
        commitEntry "f3" "c" true]).1.pending ∧
    errorsOf (runCommit
      [commitEntry "f1" "a" true, commitEntry "f2" "b" true, commitEntry "f3" "c" true]
      [⟨"f1", (commitEntry "f1" "a" true).current_, true⟩,
       ⟨"f2", (commitEntry "f2" "b" true).current_, false⟩,
       ⟨"f3", (commitEntry "f3" "c" true).current_, true⟩]).events =
      [errorMessage "f2"] ∧
    upsertsOf (runCommit
      [commitEntry "f1" "a" true, commitEntry "f2" "b" true, commitEntry "f3" "c" true]
      [⟨"f1", (commitEntry "f1" "a" true).current_, true⟩,
       ⟨"f2", (commitEntry "f2" "b" true).current_, false⟩,
       ⟨"f3", (commitEntry "f3" "c" true).current_, true⟩]).events =
      [(commitEntry "f1" "a" true).current_, (commitEntry "f3" "c" true).current_] :=
  ⟨by decide,
    by
      have h := commit_failure_handling
        [commitEntry "f1" "a" true, commitEntry "f2" "b" true, commitEntry "f3" "c" true]
        [⟨"f1", (commitEntry "f1" "a" true).current_, true⟩,
         ⟨"f2", (commitEntry "f2" "b" true).current_, false⟩,
         ⟨"f3", (commitEntry "f3" "c" true).current_, true⟩] (by decide)
      rw [h.1]
      decide,
    by
      have h := commit_failure_handling
        [commitEntry "f1" "a" true, commitEntry "f2" "b" true, commitEntry "f3" "c" true]
        [⟨"f1", (commitEntry "f1" "a" true).current_, true⟩,
         ⟨"f2", (commitEntry "f2" "b" true).current_, false⟩,
         ⟨"f3", (commitEntry "f3" "c" true).current_, true⟩] (by decide)
      rw [h.2.1]
      decide⟩

/-- C8 is false as stated: `TidalCoverProvider::CancelSearch` ignores
its request-id argument and does nothing, so after `CancelSearch(7)` the
in-flight search's reply is still tracked and its result for request id
7 is still delivered when the reply finishes. -/
theorem cancelSearch_still_delivers :
    cancelSearch ⟨[0]⟩ 7 = (⟨[0]⟩ : TidalProviderState) ∧
    (handleSearchReply (cancelSearch ⟨[0]⟩ 7) 0 7 ⟨[("artist", "url")]⟩).2 =
      [(7, ⟨[("artist", "url")]⟩)] := by
  refine ⟨rfl, ?_⟩
  decide

/-- C8 amended: `CancelSearch(r)` is a no-op — it cancels nothing — and
an in-flight search for request id `r` still delivers its
`SearchFinished(r, …)` result when its network reply finishes. -/
theorem cancelSearch_noop (st : TidalProviderState) (r : Int) (tag : Nat)
    (parsed : CoverResults) (h : tag ∈ st.replies_) :
    cancelSearch st r = st ∧
    (handleSearchReply (cancelSearch st r) tag r parsed).2 = [(r, parsed)] := by
  refine ⟨rfl, ?_⟩
  unfold cancelSearch handleSearchReply
  rw [if_pos h]

/-- Witness for C8 (amended) at a concrete input. -/
theorem cancelSearch_noop_witness :
    (0 : Nat) ∈ (⟨[0]⟩ : TidalProviderState).replies_ ∧
    (handleSearchReply (cancelSearch ⟨[0]⟩ 5) 0 5 ⟨[]⟩).2 = [(5, ⟨[]⟩)] :=
  ⟨by decide, (cancelSearch_noop ⟨[0]⟩ 5 0 ⟨[]⟩ (by decide)).2⟩

/-- C10: `StartSearch` returns false and issues no request when the
service is absent or unauthenticated, or when artist, album and title
are all empty; otherwise it issues exactly one request and returns
true, choosing the track-search resource exactly when album is empty
and title is non-empty, and the album-search resource in every other
case. -/
theorem startSearch_spec (s : TidalSession) (artist album title : String) :
    startSearch none artist album title = (false, []) ∧
    (s.authenticated = false → startSearch (some s) artist album title = (false, [])) ∧
    (artist = "" ∧ album = "" ∧ title = "" →
      startSearch (some s) artist album title = (false, [])) ∧
    (s.authenticated = true → ¬ (artist = "" ∧ album = "" ∧ title = "") →
      (startSearch (some s) artist album title).1 = true ∧
      (startSearch (some s) artist album title).2.length = 1 ∧
      ∀ rq ∈ (startSearch (some s) artist album title).2,
        rq.resource =
          if album = "" ∧ ¬ title = "" then "search/tracks" else "search/albums") := by
  refine ⟨rfl, ?_, ?_, ?_⟩
  · intro h
    simp only [startSearch]
    rw [if_pos h]
  · intro h
    by_cases ha : s.authenticated = false
    · simp only [startSearch]
      rw [if_pos ha]
    · simp only [startSearch]
      rw [if_neg ha, if_pos h]
  · intro ha hne
    have hna : ¬ (s.authenticated = false) := by simp [ha]
    simp only [startSearch]
    rw [if_neg hna, if_neg hne]
    refine ⟨rfl, rfl, ?_⟩
    intro rq hrq
    rw [List.mem_singleton] at hrq
    subst hrq
    split <;> rfl

/-- Witness for C10 at a concrete input: an authenticated session with
only artist and title set issues one track-search request. -/
theorem startSearch_spec_witness :
    (⟨true, "US", "tok"⟩ : TidalSession).authenticated = true ∧
    ¬ (("a" : String) = "" ∧ ("" : String) = "" ∧ ("t" : String) = "") ∧
    (startSearch (some ⟨true, "US", "tok"⟩) "a" "" "t").1 = true ∧
    ∀ rq ∈ (startSearch (some ⟨true, "US", "tok"⟩) "a" "" "t").2,
      rq.resource =
        if ("" : String) = "" ∧ ¬ ("t" : String) = "" then "search/tracks"
        else "search/albums" :=
  ⟨by decide, by decide,
    ((startSearch_spec ⟨true, "US", "tok"⟩ "a" "" "t").2.2.2 (by decide) (by decide)).1,
    ((startSearch_spec ⟨true, "US", "tok"⟩ "a" "" "t").2.2.2 (by decide) (by decide)).2.2⟩

end Strawberry
